import Mathlib

/-!
Verification of the bipartite graph filtering pipeline of `eu-network-graph`
(`src/api/bip.py` and `src/server.py`).

Edge tables are embedded as Lean lists of rows.  A raw interaction row carries
a `source` (actor id), a `target` (organization id) and an optional raw
timestamp value (the `ts_col` column when it exists); an aggregated row
additionally carries the `weight` and `timestamps` columns produced by the
pandas `groupby` in `filter_edges_by_weight` / `build_d3_bipartite`.  All ids
are strings because the Python code coerces both columns with `astype(str)`
before filtering.

Timestamp parsing (`pd.to_datetime` + `strftime` in `coerce_timestamp_series`)
is external library behaviour; the development is parameterized by an
arbitrary parse-and-format function `toDT : String → Option String`
(`none` models an unparseable value, which pandas coerces to `NaT` and
`coerce_timestamp_series` then maps to the empty string).  Every theorem
quantifies over `toDT`, so nothing proved here depends on a particular
timestamp format.
-/

/- ===== Python string primitives, re-implemented on character lists ===== -/

/-- Lower-case an ASCII letter, as Python `str.lower` does on ASCII input. -/
def lowerChar (c : Char) : Char :=
  if 65 ≤ c.toNat ∧ c.toNat ≤ 90 then Char.ofNat (c.toNat + 32) else c

/-- Python `str.lower` (ASCII fragment, which is all the code compares). -/
def pyLower (s : String) : String := ⟨s.data.map lowerChar⟩

/-- Python `str.strip`: drop leading and trailing whitespace. -/
def pyStrip (s : String) : String :=
  ⟨((s.data.dropWhile Char.isWhitespace).reverse.dropWhile Char.isWhitespace).reverse⟩

/-- Strict lexicographic comparison of character lists (code-point order). -/
def charListLt : List Char → List Char → Bool
  | [], [] => false
  | [], _ :: _ => true
  | _ :: _, [] => false
  | a :: as, b :: bs =>
    if a.toNat < b.toNat then true
    else if b.toNat < a.toNat then false
    else charListLt as bs

/-- Strict string comparison in code-point order (pandas sorts group keys so). -/
def strLt (a b : String) : Bool := charListLt a.data b.data

/-- Lexicographic order on `(source, target)` pairs, the order in which the
pandas `groupby(["source", "target"])` emits its groups. -/
def pairLe (p q : String × String) : Bool :=
  if p.1 = q.1 then !(strLt q.2 p.2) else strLt p.1 q.1

/-- Value of an ASCII digit. -/
def digChar (c : Char) : Option Nat :=
  if 48 ≤ c.toNat ∧ c.toNat ≤ 57 then some (c.toNat - 48) else none

/-- Parse a non-empty all-digit character list as a natural number. -/
def digitsVal (l : List Char) : Option Nat :=
  match l with
  | [] => none
  | _ :: _ =>
    l.foldl
      (fun acc c =>
        match acc, digChar c with
        | some a, some d => some (a * 10 + d)
        | _, _ => none)
      (some 0)

/-- Python `int(s)` on a query-string value: an optional minus sign followed by
digits; anything else raises `ValueError` (modelled as `none`).  Python's
tolerance for surrounding whitespace, a leading plus and underscores is
omitted; no claim exercises it. -/
def pyParseInt (s : String) : Option Int :=
  match s.data with
  | '-' :: rest => (digitsVal rest).map fun n => -(n : Int)
  | l => (digitsVal l).map fun n => (n : Int)

/- ===== Data model ===== -/

/-- One raw interaction row of the edge table: `source`, `target`, and the
value of the timestamp column when the table has one. -/
structure Row where
  source : String
  target : String
  ts : Option String := none
deriving DecidableEq

/-- Shorthand for a raw row without a timestamp value. -/
def row (s t : String) : Row := ⟨s, t, none⟩

/-- One aggregated edge row: the `source`, `target`, `weight`, `timestamps`
columns produced by the `groupby` aggregations in `bip.py`. -/
structure AggRow where
  source : String
  target : String
  weight : Int
  timestamps : List String
deriving DecidableEq

/-- An edge table is either raw interaction rows (no `weight`/`timestamps`
columns) or an aggregated table (both columns present).  This mirrors the
column test `("weight" in edf.columns) and ("timestamps" in edf.columns)`
in `build_d3_bipartite`. -/
inductive ETable where
  | raw : List Row → ETable
  | agg : List AggRow → ETable
deriving DecidableEq

/-- A row of the master node table as both pipelines build it: `id` plus the
`type`, `label` and `name` columns (`none` models a NaN cell).  Both `main`
in `bip.py` and `build_graph` in `server.py` construct the node table with a
`label` column, so the `"label" not in ndf.columns` fallback branch of
`build_d3_bipartite` is dead in this program and not modelled. -/
structure NodeRow where
  id : String
  typ : Option String := none
  label : Option String := none
  name : Option String := none
deriving DecidableEq

/-- A node record of the emitted D3 JSON. -/
structure Node where
  id : String
  typ : String
  label : String
  name : Option String := none
deriving DecidableEq

/-- A link record of the emitted D3 JSON. -/
structure Link where
  source : String
  target : String
  weight : Int
  timestamps : List String
deriving DecidableEq

/-- The emitted graph object `{nodes: [...], links: [...]}`. -/
structure Graph where
  nodes : List Node
  links : List Link
deriving DecidableEq

/- ===== Degree filter (`filter_bipartite_by_degree`, bip.py:181-215) ===== -/

/-- Actor degree: incident edge-row count of `a` as source
(`df["source"].value_counts()`). -/
def degSrc (df : List Row) (a : String) : Nat :=
  df.countP fun r => r.source == a

/-- Organization degree: incident edge-row count of `o` as target
(`df["target"].value_counts()`). -/
def degTgt (df : List Row) (o : String) : Nat :=
  df.countP fun r => r.target == o

/-- The organization pass: when `org_min_degree > 1`, keep the rows whose
target's incident row count (over `df` itself) meets the threshold; a
threshold of 1 or below skips the check. `t ∈ keep_orgs` is exactly
`org_min_degree ≤ degTgt df t` because `value_counts` lists every target
occurring in `df` with its count. -/
def orgPass (df : List Row) (org_min_degree : Int) : List Row :=
  if 1 < org_min_degree then
    df.filter fun r => decide (org_min_degree ≤ (degTgt df r.target : Int))
  else df

/-- The actor pass, identical in shape to `orgPass` on the source column. -/
def actorPass (df : List Row) (actor_min_degree : Int) : List Row :=
  if 1 < actor_min_degree then
    df.filter fun r => decide (actor_min_degree ≤ (degSrc df r.source : Int))
  else df

/-- `filter_bipartite_by_degree`: one-pass degree thresholding, organization
filter first on the input rows, then actor filter on the org-filtered rows. -/
def filter_bipartite_by_degree (edges : List Row) (org_min_degree actor_min_degree : Int) :
    List Row :=
  let df := edges
  let df1 :=
    if 1 < org_min_degree then
      df.filter fun r => decide (org_min_degree ≤ (degTgt df r.target : Int))
    else df
  let df2 :=
    if 1 < actor_min_degree then
      df1.filter fun r => decide (actor_min_degree ≤ (degSrc df1 r.source : Int))
    else df1
  df2

/-- Modelled from the spec: the simultaneous-removal variant that §9 of the
spec contrasts with the source's sequential order — both degree checks are
computed on the input rows and applied in one filter, with the same
threshold-≤-1 no-op convention.  Defined only to be compared with
`filter_bipartite_by_degree`. -/
def simultDegreeFilter (edges : List Row) (org_min_degree actor_min_degree : Int) :
    List Row :=
  edges.filter fun r =>
    (decide (org_min_degree ≤ 1) || decide (org_min_degree ≤ (degTgt edges r.target : Int)))
      && (decide (actor_min_degree ≤ 1) || decide (actor_min_degree ≤ (degSrc edges r.source : Int)))

/- ===== K-core pruner (`bipartite_k_core_prune`, bip.py:218-264) ===== -/

/-- The retention test of one pruning round: the row's actor and organization
both have degree ≥ k over the current edge set (`df["source"].isin(keep_actors)
& df["target"].isin(keep_orgs)`). -/
def pruneCond (df : List Row) (k : Int) (r : Row) : Bool :=
  decide (k ≤ (degSrc df r.source : Int)) && decide (k ≤ (degTgt df r.target : Int))

/-- One pruning round: recompute both sides' degrees on `df` and keep the rows
passing `pruneCond`. -/
def pruneStep (k : Int) (df : List Row) : List Row :=
  df.filter (pruneCond df k)

/-- The `while changed and len(df)` loop: stop on an empty edge set or when a
round leaves the row count unchanged (an unchanged count means the filter kept
everything, so the set itself is unchanged), otherwise iterate on the pruned
set. -/
def pruneLoop (k : Int) (df : List Row) : List Row :=
  if df = [] then df
  else
    if h : (pruneStep k df).length = df.length then df
    else pruneLoop k (pruneStep k df)
termination_by df.length
decreasing_by
  exact Nat.lt_of_le_of_ne (List.length_filter_le _ _) h

/-- Number of executions of the loop body (the `it` counter of the source). -/
def pruneIters (k : Int) (df : List Row) : Nat :=
  if df = [] then 0
  else
    if h : (pruneStep k df).length = df.length then 1
    else 1 + pruneIters k (pruneStep k df)
termination_by df.length
decreasing_by
  exact Nat.lt_of_le_of_ne (List.length_filter_le _ _) h

/-- The same loop with an explicit iteration budget, used to state that
`|E| + 1` rounds always reach the fixed point. -/
def pruneLoopFuel : Nat → Int → List Row → List Row
  | 0, _, df => df
  | fuel + 1, k, df =>
    if df = [] then df
    else if (pruneStep k df).length = df.length then df
    else pruneLoopFuel fuel k (pruneStep k df)

/-- `bipartite_k_core_prune`: `k <= 1` returns the input untouched, otherwise
run the pruning loop to its fixed point. -/
def bipartite_k_core_prune (edges : List Row) (k : Int) : List Row :=
  if k ≤ 1 then edges else pruneLoop k edges

/- ===== Edge aggregation and weight filter (`filter_edges_by_weight`, bip.py:266-311) ===== -/

/-- `coerce_timestamp_series` on one cell: parse-and-format via `toDT`, with
missing or unparseable values becoming the empty string (`NaT` → `fillna("")`). -/
def coerceTs (toDT : String → Option String) (o : Option String) : String :=
  match o with
  | none => ""
  | some s => (toDT s).getD ""

/-- Number of input rows carrying the pair `p` — the `groupby` group size,
which the aggregations name `weight`. -/
def pairCount (rows : List Row) (p : String × String) : Nat :=
  rows.countP fun r => r.source == p.1 && r.target == p.2

/-- The timestamp list of the group of `p`: the coerced timestamps of the
group's rows in input order, with empty strings dropped
(`[t for t in x.tolist() if t]`). -/
def groupTs (toDT : String → Option String) (rows : List Row) (p : String × String) :
    List String :=
  ((rows.filter fun r => r.source == p.1 && r.target == p.2).map
      fun r => coerceTs toDT r.ts).filter fun t => t != ""

/-- Insert a pair into a `pairLe`-sorted list. -/
def insertPair (p : String × String) : List (String × String) → List (String × String)
  | [] => [p]
  | q :: rest => if pairLe p q then p :: q :: rest else q :: insertPair p rest

/-- Insertion sort by `pairLe` — pandas emits groupby groups sorted by key. -/
def sortPairs : List (String × String) → List (String × String)
  | [] => []
  | p :: rest => insertPair p (sortPairs rest)

/-- The distinct `(source, target)` keys of the table, in the sorted order the
`groupby` emits them. -/
def aggKeys (rows : List Row) : List (String × String) :=
  sortPairs (rows.map fun r => (r.source, r.target)).dedup

/-- The aggregated row of one group key. -/
def mkAgg (toDT : String → Option String) (tsPresent : Bool) (rows : List Row)
    (p : String × String) : AggRow :=
  ⟨p.1, p.2, (pairCount rows p : Int), if tsPresent then groupTs toDT rows p else []⟩

/-- The Edge Aggregator: one row per distinct `(source, target)` pair, with
`weight` the group size and `timestamps` the group's kept timestamps
(`tsPresent` is `ts_col and ts_col in df.columns`; when false every group
gets `[]`, from `agg["timestamps"] = [[] for _ in range(len(agg))]`). -/
def aggregate (toDT : String → Option String) (tsPresent : Bool) (rows : List Row) :
    List AggRow :=
  (aggKeys rows).map (mkAgg toDT tsPresent rows)

/-- `filter_edges_by_weight`: `min_weight <= 1` returns the input table
entirely untouched (whatever its shape); otherwise aggregate and keep the rows
with `weight >= min_weight`.  On an already-aggregated input the `groupby`
recounts rows — the old `weight` column is overwritten by the group sizes and,
since `ts_col` (either `None` or the raw `"timestamp"` column name) is never a
column of an aggregated table, the no-timestamp branch runs and every group's
`timestamps` becomes `[]`. -/
def filter_edges_by_weight (toDT : String → Option String) (edges : ETable)
    (min_weight : Int) (tsPresent : Bool) : ETable :=
  if min_weight ≤ 1 then edges
  else
    match edges with
    | .raw rows =>
      .agg ((aggregate toDT tsPresent rows).filter fun a => decide (min_weight ≤ a.weight))
    | .agg rows =>
      let rr := rows.map fun a => ({ source := a.source, target := a.target } : Row)
      .agg ((aggregate toDT false rr).filter fun a => decide (min_weight ≤ a.weight))

/- ===== D3 builder (`build_d3_bipartite`, bip.py:316-397) ===== -/

/-- `_clean_str` with its default: strip, then map empty or case-insensitive
"nan" values (and a missing value) to "Unknown". -/
def clean_str (o : Option String) : String :=
  let s := pyStrip (o.getD "")
  if s = "" ∨ pyLower s = "nan" then "Unknown" else s

/-- The label fixup when the node table has a `label` column:
`fillna("")`, strip, and replace an empty result by the node's id. -/
def fixLabel (r : NodeRow) : String :=
  let l := pyStrip (r.label.getD "")
  if l = "" then r.id else l

/-- The tail of `build_d3_bipartite` after `links_df` is known: drop isolated
nodes unless `keep_isolates`, resolve labels, and emit node and link records.
`type` defaults to "unknown" when the cell is missing. -/
def assembleGraph (nodes_df : List NodeRow) (ldf : List AggRow) (keep_isolates : Bool) :
    Graph :=
  let used := (ldf.map AggRow.source) ++ (ldf.map AggRow.target)
  let ndf := if keep_isolates then nodes_df else nodes_df.filter fun n => used.contains n.id
  { nodes :=
      ndf.map fun r =>
        { id := r.id
          typ := r.typ.getD "unknown"
          label := clean_str (some (fixLabel r))
          name := r.name }
    links :=
      ldf.map fun a =>
        { source := a.source, target := a.target
          weight := a.weight, timestamps := a.timestamps } }

/-- `build_d3_bipartite`.  A raw table is aggregated first; an aggregated
table is used as-is — its `weight` column is coerced with
`to_numeric(...).fillna(1).astype(int)`, the identity on the integer weights
of this embedding, and the `isinstance(links_df["timestamps"].iloc[0], list)`
probe positionally indexes the first row, so an aggregated table with zero
rows raises `IndexError` (the probe itself always sees a list here, so the
element-wise coercion never runs). -/
def build_d3_bipartite (toDT : String → Option String) (nodes_df : List NodeRow)
    (edges_df : ETable) (tsPresent keep_isolates : Bool) : Except String Graph :=
  match edges_df with
  | .raw rows => .ok (assembleGraph nodes_df (aggregate toDT tsPresent rows) keep_isolates)
  | .agg [] => .error "single positional indexer is out-of-bounds"
  | .agg rows => .ok (assembleGraph nodes_df rows keep_isolates)

/- ===== Served pipeline (`build_graph` and `get_graph`, server.py:40-245) ===== -/

/-- The filter parameters of one request. -/
structure Params where
  org_min_degree : Int
  actor_min_degree : Int
  bipartite_k_core : Int
  min_edge_weight : Int
  keep_isolates : Bool
deriving DecidableEq

/-- All node ids of a graph. -/
def nodeIds (g : Graph) : List String := g.nodes.map Node.id

/-- Link endpoints in the order the repair loop of `build_graph` visits them
(`source` then `target` per link). -/
def endpointList (links : List Link) : List String :=
  links.foldr (fun l acc => l.source :: l.target :: acc) []

/-- The endpoints absent from the node table (`missing_orgs`).  Python
collects them into a set; the embedding deduplicates the list instead, which
fixes an iteration order where Python's set order is unspecified — no theorem
below depends on the order. -/
def missingEndpoints (g : Graph) : List String :=
  ((endpointList g.links).filter fun s => !((nodeIds g).contains s)).dedup

/-- The post-assembly consistency repair of `build_graph`: append a
placeholder org node for every edge endpoint absent from the node collection. -/
def repairMissing (g : Graph) : Graph :=
  { g with
    nodes :=
      g.nodes ++ (missingEndpoints g).map fun oid =>
        { id := oid, typ := "org", label := oid, name := some oid } }

/-- `build_graph` from the structural-filtering stage on: the mode-specific
data loading above it is external input, so the already-assembled node table
and raw edge rows (with `tsPresent` telling whether a timestamp column was
found) are parameters.  Degree filter, then optional k-core, then weight
filter, then the D3 build with `ts_col=None`, then the missing-node repair. -/
def build_graph (toDT : String → Option String) (nodes_df : List NodeRow)
    (edges : List Row) (tsPresent : Bool) (p : Params) : Except String Graph :=
  let e1 := filter_bipartite_by_degree edges p.org_min_degree p.actor_min_degree
  let e2 := if 1 < p.bipartite_k_core then bipartite_k_core_prune e1 p.bipartite_k_core else e1
  let e3 := filter_edges_by_weight toDT (.raw e2) p.min_edge_weight tsPresent
  (build_d3_bipartite toDT nodes_df e3 false p.keep_isolates).map repairMissing

/-- The raw query-string arguments of a request (`none` = parameter absent,
so `request.args.get` falls back to its default). -/
structure RawArgs where
  mode : Option String := none
  org_min_degree : Option String := none
  actor_min_degree : Option String := none
  bipartite_k_core : Option String := none
  min_edge_weight : Option String := none
  keep_isolates : Option String := none
deriving DecidableEq

/-- `int(request.args.get(name, default))`: the default when absent, otherwise
parse or raise `ValueError`. -/
def parse_int_arg (o : Option String) (dflt : Int) : Except String Int :=
  match o with
  | none => .ok dflt
  | some s =>
    match pyParseInt s with
    | some n => .ok n
    | none => .error ("invalid literal for int() with base 10: " ++ s)

/-- Mode selection never raises: anything outside the three modes falls back
to "full". -/
def parse_mode (o : Option String) : String :=
  let m := o.getD "full"
  if m = "mep" ∨ m = "commission" ∨ m = "full" then m else "full"

/-- The body of the `try` block of `get_graph`: parse every numeric parameter
(each may raise), read the isolate flag, and build the graph. -/
def tryBlock (toDT : String → Option String) (nodes_df : List NodeRow)
    (edges : List Row) (tsPresent : Bool) (args : RawArgs) : Except String Graph := do
  let omd ← parse_int_arg args.org_min_degree 2
  let amd ← parse_int_arg args.actor_min_degree 1
  let k ← parse_int_arg args.bipartite_k_core 0
  let mw ← parse_int_arg args.min_edge_weight 1
  let keep := pyLower (args.keep_isolates.getD "false") = "true"
  build_graph toDT nodes_df edges tsPresent ⟨omd, amd, k, mw, keep⟩

/-- An HTTP response of the graph endpoint: status, optional error message,
and the two collections of the JSON payload. -/
structure Resp where
  status : Nat
  error : Option String
  nodes : List Node
  links : List Link
deriving DecidableEq

/-- `get_graph`: the serving boundary.  A successful build is returned as the
graph JSON; any exception from the `try` block becomes a 500 response carrying
the message and an empty graph. -/
def get_graph (toDT : String → Option String) (nodes_df : List NodeRow)
    (edges : List Row) (tsPresent : Bool) (args : RawArgs) : Resp :=
  match tryBlock toDT nodes_df edges tsPresent args with
  | .ok g => ⟨200, none, g.nodes, g.links⟩
  | .error e => ⟨500, some e, [], []⟩

/- ===== Concrete inputs used by counterexamples and witnesses ===== -/

/-- A trivial parse-and-format function used to instantiate `toDT` in closed
statements. -/
def dtId : String → Option String := fun s => some s

/-- Degree-filter input: orgs O and P both have input degree 2, but after the
actor pass (threshold 2) only actor a1 survives, leaving O with one row. -/
def edgesDeg : List Row := [row "a1" "O", row "a2" "O", row "a1" "P", row "a3" "P"]

/-- Sequential-versus-simultaneous input: dropping org Y first reduces actor
a's degree below 2 before the actor pass runs. -/
def edgesSeq : List Row := [row "a" "O", row "b" "O", row "a" "Y"]

/-- The spec's §8 k-core example `{(a1,o1),(a1,o2),(a2,o1)}`. -/
def edgesCore : List Row := [row "a1" "o1", row "a1" "o2", row "a2" "o1"]

/-- An already-aggregated single-row table with weight 5. -/
def aggOne : List AggRow := [⟨"A", "X", 5, ["2020-01-01T00:00:00Z"]⟩]

/-- The spec's §8 weight-filter example rows `[(A,X),(A,X),(B,X)]`. -/
def edgesWt : List Row := [row "A" "X", row "A" "X", row "B" "X"]

/-- Node table for the served-pipeline witness: only org X is known. -/
def nodesW : List NodeRow := [{ id := "X", typ := some "org", label := some "Org X" }]

/-- Edge rows for the served-pipeline witness. -/
def edgesW : List Row := [row "a" "X", row "b" "X"]

/-- Parameters for the served-pipeline witness: the defaults of `get_graph`. -/
def paramsW : Params := ⟨2, 1, 0, 1, false⟩

/-- Extract the graph of a successful build (junk value on error); lets closed
statements name the concrete graph a pipeline run produces without spelling it
out. -/
def graphOf (e : Except String Graph) : Graph :=
  match e with
  | .ok g => g
  | .error _ => ⟨[], []⟩

/-- Request arguments whose `org_min_degree` cannot be parsed as an integer. -/
def argsBad : RawArgs := { org_min_degree := some "two" }

/- ===== Helper lemmas: degrees under filtering ===== -/

lemma countP_filter_of_imp {α : Type} (p q : α → Bool) :
    ∀ l : List α, (∀ x ∈ l, p x = true → q x = true) →
      (l.filter q).countP p = l.countP p := by
  intro l h
  induction l with
  | nil => rfl
  | cons x xs ih =>
    have ih' := ih fun y hy => h y (List.mem_cons_of_mem x hy)
    cases hq : q x with
    | false =>
      have hp : p x = false := by
        cases hpx : p x with
        | false => rfl
        | true => exact absurd (h x (List.mem_cons_self x xs) hpx) (by simp [hq])
      simp [List.filter_cons, hq, List.countP_cons, hp, ih']
    | true =>
      simp [List.filter_cons, hq, List.countP_cons, ih']

lemma degSrc_filter_eq (mid : List Row) (q : Row → Bool) (a : String)
    (h : ∀ x ∈ mid, x.source = a → q x = true) :
    degSrc (mid.filter q) a = degSrc mid a :=
  countP_filter_of_imp _ _ mid fun x hx hpx => h x hx (by simpa using hpx)

lemma degTgt_filter_eq (mid : List Row) (q : Row → Bool) (o : String)
    (h : ∀ x ∈ mid, x.target = o → q x = true) :
    degTgt (mid.filter q) o = degTgt mid o :=
  countP_filter_of_imp _ _ mid fun x hx hpx => h x hx (by simpa using hpx)

lemma one_le_degSrc {df : List Row} {r : Row} (h : r ∈ df) : 1 ≤ degSrc df r.source :=
  List.countP_pos_iff.mpr ⟨r, h, by simp⟩

lemma one_le_degTgt {df : List Row} {r : Row} (h : r ∈ df) : 1 ≤ degTgt df r.target :=
  List.countP_pos_iff.mpr ⟨r, h, by simp⟩

/- ===== C1 ===== -/

/-- C1 counterexample: with `org_min_degree = actor_min_degree = 2` on
`edgesDeg`, both orgs pass the org filter, but the actor pass then removes
actors a2 and a3, leaving org O with a single incident row in the output —
the claimed output-side organization bound fails. -/
theorem C1_counterexample :
    ¬ (∀ r ∈ filter_bipartite_by_degree edgesDeg 2 2,
        (2 : Int) ≤ (degTgt (filter_bipartite_by_degree edgesDeg 2 2) r.target : Int)
          ∧ (2 : Int) ≤ (degSrc (filter_bipartite_by_degree edgesDeg 2 2) r.source : Int)) := by
  decide

/-- C1 (amended): after `filter_bipartite_by_degree`, every surviving actor
meets `actor_min_degree` counted over the output rows themselves, but a
surviving organization is only guaranteed `org_min_degree` counted over the
intermediate org-filtered rows — the later actor pass may push its output
count below the threshold. -/
theorem C1_degree_filter_amended (edges : List Row) (omd amd : Int) :
    (∀ r ∈ filter_bipartite_by_degree edges omd amd,
        amd ≤ (degSrc (filter_bipartite_by_degree edges omd amd) r.source : Int))
      ∧ (∀ r ∈ filter_bipartite_by_degree edges omd amd,
        omd ≤ (degTgt (orgPass edges omd) r.target : Int)) := by
  have hcomp : filter_bipartite_by_degree edges omd amd = actorPass (orgPass edges omd) amd :=
    rfl
  rw [hcomp]
  constructor
  · intro r hr
    by_cases ha : 1 < amd
    · rw [actorPass, if_pos ha] at hr ⊢
      have hrm := List.mem_of_mem_filter hr
      have hq := List.of_mem_filter hr
      have hq' : amd ≤ (degSrc (orgPass edges omd) r.source : Int) := by
        simpa using hq
      have hdeq :
          degSrc ((orgPass edges omd).filter fun x =>
              decide (amd ≤ (degSrc (orgPass edges omd) x.source : Int))) r.source
            = degSrc (orgPass edges omd) r.source := by
        refine degSrc_filter_eq _ _ _ fun x _ hx => ?_
        rw [hx]
        simpa using hq'
      rw [hdeq]
      exact hq'
    · rw [actorPass, if_neg ha] at hr ⊢
      have h1 := one_le_degSrc hr
      omega
  · intro r hr
    have hrm : r ∈ orgPass edges omd := by
      by_cases ha : 1 < amd
      · rw [actorPass, if_pos ha] at hr
        exact List.mem_of_mem_filter hr
      · rwa [actorPass, if_neg ha] at hr
    by_cases ho : 1 < omd
    · rw [orgPass, if_pos ho] at hrm ⊢
      have hq := List.of_mem_filter hrm
      have hq' : omd ≤ (degTgt edges r.target : Int) := by simpa using hq
      have hdeq :
          degTgt (edges.filter fun x => decide (omd ≤ (degTgt edges x.target : Int))) r.target
            = degTgt edges r.target := by
        refine degTgt_filter_eq _ _ _ fun x _ hx => ?_
        rw [hx]
        simpa using hq'
      rw [hdeq]
      exact hq'
    · rw [orgPass, if_neg ho] at hrm ⊢
      have h1 := one_le_degTgt hrm
      omega

/- ===== C7 ===== -/

/-- C7: the Degree Filter is exactly the sequential composition of the
organization pass (degrees on the input) followed by the actor pass (degrees
on the org-filtered rows); a threshold of 1 or below makes the corresponding
pass the identity; and the sequential result differs from simultaneous
removal on `edgesSeq`. -/
theorem C7_sequential_order :
    (∀ (edges : List Row) (omd amd : Int),
        filter_bipartite_by_degree edges omd amd = actorPass (orgPass edges omd) amd)
      ∧ (∀ (edges : List Row) (omd : Int), omd ≤ 1 → orgPass edges omd = edges)
      ∧ (∀ (edges : List Row) (amd : Int), amd ≤ 1 → actorPass edges amd = edges)
      ∧ filter_bipartite_by_degree edgesSeq 2 2 ≠ simultDegreeFilter edgesSeq 2 2 := by
  refine ⟨fun edges omd amd => rfl, ?_, ?_, ?_⟩
  · intro edges omd h
    rw [orgPass, if_neg (by omega)]
  · intro edges amd h
    rw [actorPass, if_neg (by omega)]
  · decide

/-- C7 witness: the conjuncts of `C7_sequential_order` instantiated at
`edgesSeq` with thresholds 2, 1 and 0. -/
theorem C7_sequential_order_witness :
    (filter_bipartite_by_degree edgesSeq 2 2 = actorPass (orgPass edgesSeq 2) 2)
      ∧ ((1 : Int) ≤ 1 ∧ orgPass edgesSeq 1 = edgesSeq)
      ∧ ((0 : Int) ≤ 1 ∧ actorPass edgesSeq 0 = edgesSeq)
      ∧ filter_bipartite_by_degree edgesSeq 2 2 ≠ simultDegreeFilter edgesSeq 2 2 :=
  ⟨C7_sequential_order.1 edgesSeq 2 2,
   ⟨by decide, C7_sequential_order.2.1 edgesSeq 1 (by decide)⟩,
   ⟨by decide, C7_sequential_order.2.2.1 edgesSeq 0 (by decide)⟩,
   C7_sequential_order.2.2.2⟩

/- ===== Helper lemmas: the pruning loop ===== -/

lemma pruneLoop_nil (k : Int) : pruneLoop k [] = [] := by
  rw [pruneLoop]
  simp

lemma pruneLoop_fixed (k : Int) (df : List Row) :
    pruneStep k (pruneLoop k df) = pruneLoop k df := by
  induction df using pruneLoop.induct k with
  | case1 =>
    rw [pruneLoop_nil]
    rfl
  | case2 df hnil hlen =>
    rw [pruneLoop, if_neg hnil, dif_pos hlen]
    exact List.Sublist.eq_of_length (List.filter_sublist df) hlen
  | case3 df hnil hlen ih =>
    rw [pruneLoop, if_neg hnil, dif_neg hlen]
    exact ih

lemma pruneLoop_sublist (k : Int) (df : List Row) : (pruneLoop k df).Sublist df := by
  induction df using pruneLoop.induct k with
  | case1 =>
    rw [pruneLoop_nil]
  | case2 df hnil hlen =>
    rw [pruneLoop, if_neg hnil, dif_pos hlen]
  | case3 df hnil hlen ih =>
    rw [pruneLoop, if_neg hnil, dif_neg hlen]
    exact ih.trans (List.filter_sublist df)

lemma pruneLoop_good (k : Int) (df : List Row) :
    ∀ r ∈ pruneLoop k df, pruneCond (pruneLoop k df) k r = true :=
  List.filter_eq_self.mp (pruneLoop_fixed k df)

lemma pruneCond_of_le {S : List Row} {k1 k2 : Int} {r : Row} (h : k1 ≤ k2)
    (hc : pruneCond S k2 r = true) : pruneCond S k1 r = true := by
  simp only [pruneCond, Bool.and_eq_true, decide_eq_true_eq] at hc ⊢
  omega

lemma pruneLoop_maximal (k : Int) (df : List Row) :
    ∀ S : List Row, S.Sublist df → (∀ r ∈ S, pruneCond S k r = true) →
      S.Sublist (pruneLoop k df) := by
  induction df using pruneLoop.induct k with
  | case1 =>
    intro S hS _
    rw [pruneLoop_nil]
    exact hS
  | case2 df hnil hlen =>
    intro S hS _
    rw [pruneLoop, if_neg hnil, dif_pos hlen]
    exact hS
  | case3 df hnil hlen ih =>
    intro S hS hgood
    rw [pruneLoop, if_neg hnil, dif_neg hlen]
    have hstep : ∀ r ∈ S, pruneCond df k r = true := by
      intro r hr
      have h1 := hgood r hr
      simp only [pruneCond, Bool.and_eq_true, decide_eq_true_eq] at h1 ⊢
      have hs : degSrc S r.source ≤ degSrc df r.source := hS.countP_le _
      have ht : degTgt S r.target ≤ degTgt df r.target := hS.countP_le _
      omega
    refine ih S ?_ hgood
    have : (S.filter (pruneCond df k)).Sublist (df.filter (pruneCond df k)) := hS.filter _
    rwa [List.filter_eq_self.mpr hstep] at this

/- ===== C3 ===== -/

/-- C3: for `k ≥ 2` the pruner's result is a true fixed point — one more
pruning round (degrees recomputed on the result, rows kept only when both
endpoints have degree ≥ k) returns the result unchanged. -/
theorem C3_kcore_fixed_point (edges : List Row) (k : Int) (hk : 2 ≤ k) :
    pruneStep k (bipartite_k_core_prune edges k) = bipartite_k_core_prune edges k := by
  rw [bipartite_k_core_prune, if_neg (by omega)]
  exact pruneLoop_fixed k edges

/-- C3 witness: the spec's own example `{(a1,o1),(a1,o2),(a2,o1)}` with
`k = 2`, on which the pruner empties the edge set. -/
theorem C3_kcore_fixed_point_witness :
    (2 : Int) ≤ 2
      ∧ pruneStep 2 (bipartite_k_core_prune edgesCore 2) = bipartite_k_core_prune edgesCore 2 :=
  ⟨by decide, C3_kcore_fixed_point edgesCore 2 (by decide)⟩

/- ===== C4 ===== -/

/-- C4: k-core pruning is antitone in k — a larger threshold never lets more
edge rows survive. -/
theorem C4_kcore_antitone (edges : List Row) (k1 k2 : Int) (h : k1 ≤ k2) :
    (bipartite_k_core_prune edges k2).length ≤ (bipartite_k_core_prune edges k1).length := by
  rw [bipartite_k_core_prune, bipartite_k_core_prune]
  by_cases h2 : k2 ≤ 1
  · rw [if_pos h2, if_pos (le_trans h h2)]
  · rw [if_neg h2]
    by_cases h1 : k1 ≤ 1
    · rw [if_pos h1]
      exact (pruneLoop_sublist k2 edges).length_le
    · rw [if_neg h1]
      refine List.Sublist.length_le ?_
      refine pruneLoop_maximal k1 edges (pruneLoop k2 edges) (pruneLoop_sublist k2 edges) ?_
      intro r hr
      exact pruneCond_of_le h (pruneLoop_good k2 edges r hr)

/-- C4 witness: thresholds 2 ≤ 3 on the spec's example edge set. -/
theorem C4_kcore_antitone_witness :
    (2 : Int) ≤ 3
      ∧ (bipartite_k_core_prune edgesCore 3).length ≤ (bipartite_k_core_prune edgesCore 2).length :=
  ⟨by decide, C4_kcore_antitone edgesCore 2 3 (by decide)⟩

/- ===== C5 ===== -/

lemma pruneIters_le (k : Int) (df : List Row) : pruneIters k df ≤ df.length + 1 := by
  induction df using pruneIters.induct k with
  | case1 =>
    rw [pruneIters]
    simp
  | case2 df hnil hlen =>
    rw [pruneIters, if_neg hnil, dif_pos hlen]
    omega
  | case3 df hnil hlen ih =>
    rw [pruneIters, if_neg hnil, dif_neg hlen]
    have hlt : (pruneStep k df).length < df.length :=
      Nat.lt_of_le_of_ne (List.length_filter_le _ _) hlen
    omega

lemma pruneLoopFuel_eq (k : Int) :
    ∀ (fuel : Nat) (df : List Row), pruneIters k df ≤ fuel →
      pruneLoopFuel fuel k df = pruneLoop k df := by
  intro fuel
  induction fuel with
  | zero =>
    intro df h
    by_cases hnil : df = []
    · subst hnil
      rw [pruneLoop_nil]
      rfl
    · exfalso
      rw [pruneIters, if_neg hnil] at h
      by_cases hlen : (pruneStep k df).length = df.length
      · rw [dif_pos hlen] at h
        omega
      · rw [dif_neg hlen] at h
        omega
  | succ fuel ih =>
    intro df h
    by_cases hnil : df = []
    · subst hnil
      rw [pruneLoop_nil]
      rfl
    · by_cases hlen : (pruneStep k df).length = df.length
      · rw [pruneLoopFuel, if_neg hnil, if_pos hlen, pruneLoop, if_neg hnil, dif_pos hlen]
      · rw [pruneLoopFuel, if_neg hnil, if_neg hlen, pruneLoop, if_neg hnil, dif_neg hlen]
        refine ih (pruneStep k df) ?_
        have hIt : pruneIters k df = 1 + pruneIters k (pruneStep k df) := by
          rw [pruneIters, if_neg hnil, dif_neg hlen]
        omega

/- ===== C5 ===== -/

/-- C5: the iterate-until-stable loop of `bipartite_k_core_prune` terminates —
the loop body runs at most `|E| + 1` times, and a fuel budget of `|E| + 1`
rounds already reaches the loop's result. -/
theorem C5_kcore_terminates (k : Int) (df : List Row) :
    pruneIters k df ≤ df.length + 1
      ∧ pruneLoopFuel (df.length + 1) k df = pruneLoop k df :=
  ⟨pruneIters_le k df, pruneLoopFuel_eq k (df.length + 1) df (pruneIters_le k df)⟩

/- ===== Helper lemmas: sorted group keys and aggregation ===== -/

lemma mem_insertPair (x p : String × String) :
    ∀ l : List (String × String), (x ∈ insertPair p l ↔ x = p ∨ x ∈ l) := by
  intro l
  induction l with
  | nil => simp [insertPair]
  | cons q rest ih =>
    cases hb : pairLe p q with
    | true =>
      simp [insertPair, hb, List.mem_cons]
    | false =>
      simp only [insertPair, hb, Bool.false_eq_true, if_false, List.mem_cons, ih]
      tauto

lemma mem_sortPairs (x : String × String) :
    ∀ l : List (String × String), (x ∈ sortPairs l ↔ x ∈ l) := by
  intro l
  induction l with
  | nil => simp [sortPairs]
  | cons p rest ih =>
    rw [sortPairs, mem_insertPair]
    simp [ih]

lemma nodup_insertPair (p : String × String) :
    ∀ l : List (String × String), p ∉ l → l.Nodup → (insertPair p l).Nodup := by
  intro l
  induction l with
  | nil =>
    intro _ _
    simp [insertPair]
  | cons q rest ih =>
    intro hp hn
    rcases List.nodup_cons.mp hn with ⟨hqr, hnr⟩
    cases hb : pairLe p q with
    | true =>
      simp only [insertPair, hb, if_pos]
      exact List.nodup_cons.mpr ⟨hp, hn⟩
    | false =>
      simp only [insertPair, hb, Bool.false_eq_true, if_false]
      refine List.nodup_cons.mpr ⟨?_, ih (fun h => hp (List.mem_cons_of_mem q h)) hnr⟩
      intro hq
      rcases (mem_insertPair q p rest).mp hq with h | h
      · exact hp (h ▸ List.mem_cons_self q rest)
      · exact hqr h

lemma nodup_sortPairs : ∀ l : List (String × String), l.Nodup → (sortPairs l).Nodup := by
  intro l
  induction l with
  | nil =>
    intro _
    simp [sortPairs]
  | cons p rest ih =>
    intro hn
    rcases List.nodup_cons.mp hn with ⟨hp, hnr⟩
    rw [sortPairs]
    exact nodup_insertPair p (sortPairs rest) (fun h => hp ((mem_sortPairs p rest).mp h)) (ih hnr)

lemma nodup_aggKeys (rows : List Row) : (aggKeys rows).Nodup :=
  nodup_sortPairs _ (List.nodup_dedup _)

lemma mem_aggKeys {p : String × String} {rows : List Row} :
    p ∈ aggKeys rows ↔ p ∈ rows.map fun r => (r.source, r.target) := by
  rw [aggKeys, mem_sortPairs, List.mem_dedup]

lemma aggregate_map_pair (toDT : String → Option String) (tsP : Bool) (rows : List Row) :
    (aggregate toDT tsP rows).map (fun a => (a.source, a.target)) = aggKeys rows := by
  rw [aggregate, List.map_map]
  have hid : ((fun a : AggRow => (a.source, a.target)) ∘ mkAgg toDT tsP rows)
      = fun p : String × String => p := rfl
  rw [hid]
  simp

/- ===== C2 ===== -/

/-- C2 counterexample: the already-aggregated single-row table `aggOne`
(weight 5) passed through `filter_edges_by_weight` with `min_weight = 2` is
re-aggregated — its weight is recounted as 1 and the row is discarded, so the
table is not returned unchanged. -/
theorem C2_counterexample :
    filter_edges_by_weight dtId (.agg aggOne) 2 false ≠ .agg aggOne := by
  decide

/-- C2 (amended): an already-aggregated edge table passes through the Edge
Aggregator step of `build_d3_bipartite` as-is (same link rows, weights and
timestamp lists, provided the table is non-empty), and through
`filter_edges_by_weight` unchanged exactly when `min_weight ≤ 1`; with
`min_weight ≥ 2` the weight filter re-aggregates, resetting each pair's
weight to its row count — on `aggOne` this empties the table. -/
theorem C2_idempotence_amended :
    (∀ (toDT : String → Option String) (rows : List AggRow) (m : Int) (tsP : Bool),
        m ≤ 1 → filter_edges_by_weight toDT (.agg rows) m tsP = .agg rows)
      ∧ (∀ (toDT : String → Option String) (ndf : List NodeRow) (rows : List AggRow)
          (tsP keep : Bool), rows ≠ [] →
          ∃ g : Graph, build_d3_bipartite toDT ndf (.agg rows) tsP keep = .ok g
            ∧ g.links = rows.map fun a =>
                ({ source := a.source, target := a.target,
                   weight := a.weight, timestamps := a.timestamps } : Link))
      ∧ filter_edges_by_weight dtId (.agg aggOne) 2 false = .agg [] := by
  refine ⟨?_, ?_, by decide⟩
  · intro toDT rows m tsP hm
    rw [filter_edges_by_weight, if_pos hm]
  · intro toDT ndf rows tsP keep hne
    match rows with
    | [] => exact absurd rfl hne
    | a :: rest => exact ⟨_, rfl, rfl⟩

/-- C2 witness: both amended guarantees at the concrete table `aggOne`. -/
theorem C2_idempotence_amended_witness :
    filter_edges_by_weight dtId (.agg aggOne) 1 false = .agg aggOne
      ∧ ∃ g : Graph, build_d3_bipartite dtId [] (.agg aggOne) false false = .ok g
          ∧ g.links = aggOne.map fun a =>
              ({ source := a.source, target := a.target,
                 weight := a.weight, timestamps := a.timestamps } : Link) :=
  ⟨C2_idempotence_amended.1 dtId aggOne 1 false (by decide),
   C2_idempotence_amended.2.1 dtId [] aggOne false false (by decide)⟩

/- ===== C6 ===== -/

/-- C6 counterexample: with `min_weight = 1` the weight filter returns a raw
non-empty table untouched — its rows carry no `weight` field at all, so the
claimed "every output row carries weight ≥ min_weight" fails for this valid
input (the claim quantifies over every `min_weight`). -/
theorem C6_counterexample :
    filter_edges_by_weight dtId (.raw [row "A" "X"]) 1 false = .raw [row "A" "X"]
      ∧ ∀ out : List AggRow,
          filter_edges_by_weight dtId (.raw [row "A" "X"]) 1 false ≠ .agg out := by
  refine ⟨by decide, ?_⟩
  intro out h
  rw [show filter_edges_by_weight dtId (.raw [row "A" "X"]) 1 false
      = .raw [row "A" "X"] from rfl] at h
  exact ETable.noConfusion h

/-- C6 (amended): for `min_weight ≥ 2` (with `min_weight ≤ 1` the function
returns its input untouched, without aggregating), `filter_edges_by_weight`
on raw rows produces the aggregated table — pairwise-distinct
`(source, target)` keys, each weight the count of contributing input rows —
and discards exactly the keys whose count is below `min_weight`, so every
output row has `weight ≥ min_weight`. -/
theorem C6_weight_filter_amended (toDT : String → Option String) (rows : List Row)
    (m : Int) (tsP : Bool) (hm : 2 ≤ m) :
    ∃ out : List AggRow,
      filter_edges_by_weight toDT (.raw rows) m tsP = .agg out
        ∧ (∀ a ∈ out, m ≤ a.weight)
        ∧ (∀ a ∈ out, a.weight = (pairCount rows (a.source, a.target) : Int))
        ∧ (out.map fun a => (a.source, a.target)).Nodup
        ∧ ∀ p ∈ rows.map fun r => (r.source, r.target),
            m ≤ (pairCount rows p : Int) → p ∈ out.map fun a => (a.source, a.target) := by
  refine ⟨(aggregate toDT tsP rows).filter fun a => decide (m ≤ a.weight),
    ?_, ?_, ?_, ?_, ?_⟩
  · rw [filter_edges_by_weight, if_neg (by omega)]
  · intro a ha
    simpa using List.of_mem_filter ha
  · intro a ha
    rcases List.mem_map.mp (List.mem_of_mem_filter ha) with ⟨p, _, rfl⟩
    rfl
  · refine List.Nodup.sublist ((List.filter_sublist _).map _) ?_
    rw [aggregate_map_pair]
    exact nodup_aggKeys rows
  · intro p hp hcount
    have hkey : p ∈ aggKeys rows := mem_aggKeys.mpr hp
    have hmem : mkAgg toDT tsP rows p ∈ aggregate toDT tsP rows :=
      List.mem_map_of_mem _ hkey
    have hfil : mkAgg toDT tsP rows p
        ∈ (aggregate toDT tsP rows).filter fun a => decide (m ≤ a.weight) :=
      List.mem_filter.mpr ⟨hmem, by simpa using hcount⟩
    exact List.mem_map.mpr ⟨_, hfil, rfl⟩

/-- C6 witness: the spec's §8 example rows `[(A,X),(A,X),(B,X)]` with
`min_weight = 2`. -/
theorem C6_weight_filter_amended_witness :
    (2 : Int) ≤ 2
      ∧ ∃ out : List AggRow,
          filter_edges_by_weight dtId (.raw edgesWt) 2 false = .agg out
            ∧ (∀ a ∈ out, (2 : Int) ≤ a.weight)
            ∧ (∀ a ∈ out, a.weight = (pairCount edgesWt (a.source, a.target) : Int))
            ∧ (out.map fun a => (a.source, a.target)).Nodup
            ∧ ∀ p ∈ edgesWt.map fun r => (r.source, r.target),
                (2 : Int) ≤ (pairCount edgesWt p : Int)
                  → p ∈ out.map fun a => (a.source, a.target) :=
  ⟨by decide, C6_weight_filter_amended dtId edgesWt 2 false (by decide)⟩

/- ===== C10 ===== -/

/-- C10: the weight filter can legitimately discard every aggregated edge
(shown at `min_weight = 2` on a single raw row), and `build_d3_bipartite` on
the resulting zero-row aggregated table raises the positional-indexing
`IndexError` instead of returning a graph with an empty links list. -/
theorem C10_empty_agg_raises :
    filter_edges_by_weight dtId (.raw [row "A" "X"]) 2 false = .agg []
      ∧ ∀ (toDT : String → Option String) (ndf : List NodeRow) (tsP keep : Bool),
          build_d3_bipartite toDT ndf (.agg []) tsP keep =
            .error "single positional indexer is out-of-bounds" :=
  ⟨by decide, fun _ _ _ _ => rfl⟩

/- ===== Helper lemmas: the served pipeline ===== -/

lemma endpointList_cons (x : Link) (xs : List Link) :
    endpointList (x :: xs) = x.source :: x.target :: endpointList xs := rfl

lemma mem_endpointList {links : List Link} {l : Link} (h : l ∈ links) :
    l.source ∈ endpointList links ∧ l.target ∈ endpointList links := by
  induction links with
  | nil => cases h
  | cons x xs ih =>
    rw [endpointList_cons]
    rcases List.mem_cons.mp h with rfl | hx
    · exact ⟨List.mem_cons_self _ _, List.mem_cons_of_mem _ (List.mem_cons_self _ _)⟩
    · exact ⟨List.mem_cons_of_mem _ (List.mem_cons_of_mem _ (ih hx).1),
             List.mem_cons_of_mem _ (List.mem_cons_of_mem _ (ih hx).2)⟩

lemma repair_covers_endpoint (g0 : Graph) (s : String)
    (hs : s ∈ endpointList g0.links) :
    ∃ n ∈ (repairMissing g0).nodes, n.id = s := by
  by_cases hc : (nodeIds g0).contains s = true
  · have hmem : s ∈ nodeIds g0 := by simpa using hc
    rcases List.mem_map.mp hmem with ⟨n, hn, hid⟩
    exact ⟨n, List.mem_append_left _ hn, hid⟩
  · have hmiss : s ∈ missingEndpoints g0 := by
      rw [missingEndpoints, List.mem_dedup]
      exact List.mem_filter.mpr ⟨hs, by simpa using hc⟩
    refine ⟨{ id := s, typ := "org", label := s, name := some s }, ?_, rfl⟩
    exact List.mem_append_right _ (List.mem_map_of_mem _ hmiss)

lemma map_repair_ok {e : Except String Graph} {g : Graph}
    (h : e.map repairMissing = .ok g) : ∃ g0, e = .ok g0 ∧ g = repairMissing g0 := by
  cases e with
  | error s => exact Except.noConfusion h
  | ok g0 =>
    refine ⟨g0, rfl, ?_⟩
    injection h with h'
    exact h'.symm

/- ===== C8 ===== -/

/-- C8: referential integrity of the served pipeline — whatever the node
table, edge rows and filter parameters, every link of a successfully built
graph has both endpoints present as node ids, the absent ones having been
synthesized as placeholder org nodes by the post-assembly repair step of
`build_graph`. -/
theorem C8_referential_integrity (toDT : String → Option String) (ndf : List NodeRow)
    (edges : List Row) (tsP : Bool) (p : Params) (g : Graph)
    (h : build_graph toDT ndf edges tsP p = .ok g) :
    ∀ l ∈ g.links,
      (∃ n ∈ g.nodes, n.id = l.source) ∧ (∃ n ∈ g.nodes, n.id = l.target) := by
  have h' : (build_d3_bipartite toDT ndf
      (filter_edges_by_weight toDT
        (.raw (if 1 < p.bipartite_k_core
            then bipartite_k_core_prune
              (filter_bipartite_by_degree edges p.org_min_degree p.actor_min_degree)
              p.bipartite_k_core
            else filter_bipartite_by_degree edges p.org_min_degree p.actor_min_degree))
        p.min_edge_weight tsP)
      false p.keep_isolates).map repairMissing = .ok g := h
  rcases map_repair_ok h' with ⟨g0, _, hg⟩
  subst hg
  intro l hl
  have hl0 : l ∈ g0.links := hl
  exact ⟨repair_covers_endpoint g0 l.source (mem_endpointList hl0).1,
         repair_covers_endpoint g0 l.target (mem_endpointList hl0).2⟩

/-- C8 witness: a concrete successful run — node table knowing only org X,
edges from actors a and b to X, default parameters — whose repaired graph
contains placeholder nodes for a and b and satisfies referential
integrity. -/
theorem C8_referential_integrity_witness :
    build_graph dtId nodesW edgesW false paramsW
        = .ok (graphOf (build_graph dtId nodesW edgesW false paramsW))
      ∧ ∀ l ∈ (graphOf (build_graph dtId nodesW edgesW false paramsW)).links,
          (∃ n ∈ (graphOf (build_graph dtId nodesW edgesW false paramsW)).nodes,
              n.id = l.source)
            ∧ ∃ n ∈ (graphOf (build_graph dtId nodesW edgesW false paramsW)).nodes,
                n.id = l.target :=
  ⟨by rfl, C8_referential_integrity dtId nodesW edgesW false paramsW _ (by rfl)⟩

/- ===== C9 ===== -/

/-- C9: any exception escaping the build inside the `try` block of the graph
endpoint — a bad parameter or a build failure — is caught at the serving
boundary and turned into a 500 response carrying the error message together
with empty `nodes` and `links` collections. -/
theorem C9_error_boundary (toDT : String → Option String) (ndf : List NodeRow)
    (edges : List Row) (tsP : Bool) (args : RawArgs) (e : String)
    (h : tryBlock toDT ndf edges tsP args = .error e) :
    get_graph toDT ndf edges tsP args = ⟨500, some e, [], []⟩ := by
  rw [get_graph, h]

/-- C9 witness: the request whose `org_min_degree` is the unparseable string
"two"; `int()` raises and the handler returns the structured empty-graph
error response. -/
theorem C9_error_boundary_witness :
    tryBlock dtId nodesW edgesW false argsBad
        = .error "invalid literal for int() with base 10: two"
      ∧ get_graph dtId nodesW edgesW false argsBad
        = ⟨500, some "invalid literal for int() with base 10: two", [], []⟩ :=
  ⟨by rfl, C9_error_boundary dtId nodesW edgesW false argsBad _ (by rfl)⟩
